import Mathlib

/-!
Verification of the trace-cmd report parser (`wlauto/utils/trace_cmd.py`).

The embedding works over `List Char` / `String`.  The module's regular
expressions are embedded as hand-written matchers that follow the Python `re`
backtracking semantics of each concrete pattern (leftmost start, greedy /
lazy quantifier preference); the body-parser protocol (a callable mutating
`event.fields` and possibly raising) is embedded as a list of observable
steps: field assignments followed, possibly, by a raised error.
-/

set_option maxRecDepth 20000

/-- Python whitespace: the characters matched by `str.strip()` and by `\s`
in a Python 2 byte-string regex. -/
def isPyWs (c : Char) : Bool :=
  c == ' ' || c == '\t' || c == '\n' || c == '\r' || c == '\x0b' || c == '\x0c'

/-- Python substring containment (`needle in hay`) over char lists. -/
def containsTok (needle : List Char) : List Char → Bool
  | [] => needle.isEmpty
  | c :: t => needle.isPrefixOf (c :: t) || containsTok needle t

/-- Python `needle in line` on strings. -/
def strIn (needle line : String) : Bool := containsTok needle.data line.data

/-- Start marker injected into traces (module constant). -/
def TRACE_MARKER_START : String := "TRACE_MARKER_START"

/-- Stop marker injected into traces (module constant). -/
def TRACE_MARKER_STOP : String := "TRACE_MARKER_STOP"

/-- Python `str.strip()` over a char list: drop whitespace from both ends. -/
def stripWsL (cs : List Char) : List Char :=
  ((cs.dropWhile isPyWs).reverse.dropWhile isPyWs).reverse

/-- Value of a decimal digit string (callers guard that all chars are digits). -/
def digitsToNat (ds : List Char) : Nat :=
  ds.foldl (fun a c => a * 10 + (c.toNat - 48)) 0

/-- Digit-string to `Nat`; `none` unless nonempty and all ASCII digits. -/
def natOfDigits (ds : List Char) : Option Nat :=
  if !ds.isEmpty && ds.all Char.isDigit then some (digitsToNat ds) else none

/-- Python 2 `int(str)`: strip whitespace, optional sign, then decimal digits;
raises `ValueError` (here: `none`) otherwise. -/
def pyIntL (cs : List Char) : Option Int :=
  match stripWsL cs with
  | [] => none
  | c :: t =>
    if c == '+' then (natOfDigits t).map Int.ofNat
    else if c == '-' then (natOfDigits t).map (fun n => -(Int.ofNat n))
    else (natOfDigits (c :: t)).map Int.ofNat

/-- Python 2 `int(str)` on a `String`. -/
def pyInt (s : String) : Option Int := pyIntL s.data

/-- Python values stored in event attributes and fields.  A float is kept as
its literal text (no claim inspects float arithmetic). -/
inductive Value where
  | pyNone
  | int (i : Int)
  | float (lit : String)
  | str (s : String)
deriving DecidableEq

/-- The `fields` dict of an event, in insertion order with unique keys. -/
abbrev Fields := List (String × Value)

/-- Python dict assignment `d[k] = v`: overwrite in place, else append. -/
def Fields.set (fs : Fields) (k : String) (v : Value) : Fields :=
  if fs.any (fun p => p.1 == k) then fs.map (fun p => if p.1 == k then (k, v) else p)
  else fs ++ [(k, v)]

/-- Crude float-literal test: digits and at most one dot, at least one digit. -/
def isFloatLit (cs : List Char) : Bool :=
  cs.all (fun c => c.isDigit || c == '.')
    && Nat.ble (cs.filter (fun c => c == '.')).length 1
    && cs.any Char.isDigit

/-- Modelled from the spec: `numeric` (from `wlauto.utils.types`, whose source
is not under src/) is described as a permissive coercion that yields an
integer or float for numeric-looking text and returns the string unchanged
otherwise, without raising. -/
def numeric (s : String) : Value :=
  match pyInt s with
  | some i => .int i
  | none => if isFloatLit (stripWsL s.data) then .float s else .str s

/-- Which Python class an event is an instance of. -/
inductive EventKind where
  | trace
  | dropped
deriving DecidableEq

/-- Common shape of `TraceCmdEvent` and `DroppedEventsEvent` (both classes
declare the same `__slots__`); slots a constructor leaves unset in one class
are `pyNone` values. -/
structure Event where
  kind : EventKind
  thread : Value
  reporting_cpu_id : Value
  timestamp : Value
  name : String
  text : Value
  fields : Fields
deriving DecidableEq

/-- One observable action of a body parser on its event: assign a field, or
raise an error.  Any Python parser callable invoked as `parser(event, text)`
is abstracted by the sequence of steps it performs on `event.fields`. -/
inductive PStep where
  | set (k : String) (v : Value)
  | raise
deriving DecidableEq

/-- Execute parser steps under the `try/except Exception: pass` of
`TraceCmdEvent.__init__`: assignments apply in order; a raised error stops
execution and the fields assigned so far are kept. -/
def runParserCaught : List PStep → Fields → Fields
  | [], fs => fs
  | .raise :: _, fs => fs
  | .set k v :: rest, fs => runParserCaught rest (Fields.set fs k v)

/-- A body parser: given the body text, the steps it performs. -/
abbrev Parser := String → List PStep

/-- The `fields` dict a body parser leaves on a fresh event. -/
def runBodyParser (p : Parser) (text : String) : Fields :=
  runParserCaught (p text) []

/-- Header-validation failure: `int(cpu_id)` raised `ValueError`; the spec
names this condition `MalformedHeader`. -/
inductive ConsError where
  | malformedHeader (cpu_id : String)
deriving DecidableEq

/-- `TraceCmdEvent.__init__`: convert the CPU id with `int` (raising on
non-numeric input), coerce the timestamp with `numeric`, then run the
optional body parser inside `try/except Exception: pass`. -/
def mkTraceCmdEvent (thread cpu_id ts name body : String) (parser : Option Parser) :
    Except ConsError Event :=
  match pyInt cpu_id with
  | none => .error (.malformedHeader cpu_id)
  | some cid =>
    .ok { kind := .trace
          thread := .str thread
          reporting_cpu_id := .int cid
          timestamp := numeric ts
          name := name
          text := .str body
          fields := match parser with
                    | some p => runParserCaught (p body) []
                    | none => [] }

/-- `DroppedEventsEvent.__init__`: header slots set to `None`, a fixed
sentinel name, and a single `cpu_id` field (`int(cpu_id)`; `none` models an
uncaught `ValueError`, unreachable from `parse` where the id is `\d+`). -/
def mkDroppedEventsEvent (cpu_id : String) : Option Event :=
  (pyInt cpu_id).map (fun i =>
    { kind := .dropped
      thread := .pyNone
      reporting_cpu_id := .pyNone
      timestamp := .pyNone
      name := "DROPPED EVENTS DETECTED"
      text := .pyNone
      fields := [("cpu_id", Value.int i)] })

/-- Result of attribute access: a slot or field value, or the `fields` dict. -/
inductive AttrOut where
  | val (v : Value)
  | fdict (fs : Fields)
deriving DecidableEq

/-- The slot names shared by both event classes. -/
def eventSlots : List String :=
  ["thread", "reporting_cpu_id", "timestamp", "name", "text", "fields"]

/-- Attribute access on an event: normal lookup finds the slots; only when it
fails does `__getattr__` consult `fields`, raising `AttributeError(name)`
(modelled by `.error name`) when the key is absent. -/
def Event.getattr (e : Event) (n : String) : Except String AttrOut :=
  if n = "thread" then .ok (.val e.thread)
  else if n = "reporting_cpu_id" then .ok (.val e.reporting_cpu_id)
  else if n = "timestamp" then .ok (.val e.timestamp)
  else if n = "name" then .ok (.val (.str e.name))
  else if n = "text" then .ok (.val e.text)
  else if n = "fields" then .ok (.fdict e.fields)
  else
    match e.fields.lookup n with
    | some v => .ok (.val v)
    | none => .error n

/-- Python `text.split('=')`: split at every `'='`, keeping empty pieces. -/
def splitOnEq : List Char → List (List Char)
  | [] => [[]]
  | '=' :: t => [] :: splitOnEq t
  | c :: t =>
    match splitOnEq t with
    | h :: r => (c :: h) :: r
    | [] => [[c]]

/-- Python `e.rsplit(' ', 1)`: split at the last space character, at most once. -/
def rsplitSpace1 (cs : List Char) : List (List Char) :=
  let r := cs.reverse
  let after := r.takeWhile (fun c => !(c == ' '))
  match r.dropWhile (fun c => !(c == ' ')) with
  | [] => [cs]
  | _ :: before => [before.reverse, after.reverse]

/-- Pair up consecutive elements (`zip(i, i)` over one iterator). -/
def pairUp {α : Type} : List α → List (α × α)
  | a :: b :: t => (a, b) :: pairUp t
  | _ => []

/-- Convert a stripped token the way the module stores values: `int(v)` when
it parses, else the string itself. -/
def intOrStrTok (v : List Char) : Value :=
  match pyIntL v with
  | some i => Value.int i
  | none => Value.str (String.mk v)

/-- The key/value pairs `default_body_parser` computes:
`parts = [e.rsplit(' ', 1) for e in text.strip().split('=')]` flattened and
stripped; nothing when the part count is odd, else consecutive pairs with the
value converted by `int` when possible. -/
def defaultPairsL (text : List Char) : List (String × Value) :=
  let parts := (((splitOnEq (stripWsL text)).map rsplitSpace1).flatten).map stripWsL
  if parts.length % 2 == 0 then
    (pairUp parts).map (fun kv => (String.mk kv.1, intOrStrTok kv.2))
  else []

/-- `default_body_parser` from the source, as the steps it performs on the
event: one field assignment per computed pair, and it never raises. -/
def defaultBodyParser : Parser := fun text =>
  (defaultPairsL text.data).map (fun kv => PStep.set kv.1 kv.2)

/-- An abstract compiled regex with named groups, reduced to its observable
behaviour in `regex_body_parser`: `search` returning the groupdict (every
named group of the module's regexes participates in any match). -/
abbrev Rx := String → Option (List (String × String))

/-- `regex_body_parser` from the source: the returned parser searches the
body text; no match sets nothing; a match assigns every named group, with
`int` conversion attempted on each captured text. -/
def regexBodyParser (regex : Rx) : Parser := fun text =>
  match regex text with
  | none => []
  | some gd =>
    gd.map (fun kv =>
      PStep.set kv.1
        (match pyInt kv.2 with
         | some i => Value.int i
         | none => Value.str kv.2))

/-- `[k, k-1, ..., 1]`: candidate lengths for a greedy quantifier, longest
first. -/
def countdown : Nat → List Nat
  | 0 => []
  | n + 1 => (n + 1) :: countdown n

/-- Named groups of the legacy `sched_switch` regex. -/
structure SchedGroups where
  prev_comm : String
  prev_pid : String
  prev_prio : String
  status : String
  next_comm : String
  next_pid : String
  next_prio : String
deriving DecidableEq

/-- Candidate end indices for `\S.*` followed by `':'`: positions `i ≥ 1`
holding `':'` whose preceding `.*` span contains no newline, in decreasing
order (greedy `.*` preference). -/
def commSplitsDesc (cs : List Char) : List Nat :=
  (countdown (cs.length - 1)).filter
    (fun i => cs.getD i ' ' == ':' && ((cs.take i).drop 1).all (fun c => !(c == '\n')))

/-- Deterministic tail of the legacy regex after the `prev_comm` colon:
`(?P<prev_pid>\d+) \[(?P<prev_prio>\d+)\] (?P<status>\S+) ==> `; returns the
three captures and the remaining text. -/
def matchPrevRest (cs : List Char) : Option (String × String × String × List Char) :=
  let pid := cs.takeWhile Char.isDigit
  if pid.isEmpty then none else
  match cs.drop pid.length with
  | ' ' :: '[' :: r1 =>
    let prio := r1.takeWhile Char.isDigit
    if prio.isEmpty then none else
    match r1.drop prio.length with
    | ']' :: ' ' :: r2 =>
      let st := r2.takeWhile (fun c => !(isPyWs c))
      if st.isEmpty then none else
      let r3 := r2.drop st.length
      if " ==> ".data.isPrefixOf r3 then
        some (String.mk pid, String.mk prio, String.mk st, r3.drop 5)
      else none
    | _ => none
  | _ => none

/-- `(?P<next_comm>\S.*):(?P<next_pid>\d+) \[(?P<next_prio>\d+)\]` with the
greedy `.*` backtracking over colon positions. -/
def matchNextPart (cs : List Char) : Option (String × String × String) :=
  match cs with
  | [] => none
  | c0 :: _ =>
    if isPyWs c0 then none else
    (commSplitsDesc cs).findSome? (fun i =>
      let r := cs.drop (i + 1)
      let pid := r.takeWhile Char.isDigit
      if pid.isEmpty then none else
      match r.drop pid.length with
      | ' ' :: '[' :: r1 =>
        let prio := r1.takeWhile Char.isDigit
        if prio.isEmpty then none else
        match r1.drop prio.length with
        | ']' :: _ => some (String.mk (cs.take i), String.mk pid, String.mk prio)
        | _ => none
      | _ => none)

/-- The legacy `sched_switch` regex, attempted at one start position. -/
def schedMatchAt (cs : List Char) : Option SchedGroups :=
  match cs with
  | [] => none
  | c0 :: _ =>
    if isPyWs c0 then none else
    (commSplitsDesc cs).findSome? (fun i =>
      match matchPrevRest (cs.drop (i + 1)) with
      | none => none
      | some (pid, prio, st, rest) =>
        match matchNextPart rest with
        | none => none
        | some (ncomm, npid, nprio) =>
          some ⟨String.mk (cs.take i), pid, prio, st, ncomm, npid, nprio⟩)

/-- `regex.search` for the legacy `sched_switch` regex: leftmost start. -/
def schedSearch : List Char → Option SchedGroups
  | [] => none
  | c :: t =>
    match schedMatchAt (c :: t) with
    | some g => some g
    | none => schedSearch t

/-- The legacy `sched_switch` regex as an abstract `Rx`: its groupdict. -/
def legacyRx : Rx := fun text =>
  (schedSearch text.data).map (fun g =>
    [("prev_comm", g.prev_comm), ("prev_pid", g.prev_pid),
     ("prev_prio", g.prev_prio), ("status", g.status),
     ("next_comm", g.next_comm), ("next_pid", g.next_pid),
     ("next_prio", g.next_prio)])

/-- Python `text.count('=')`. -/
def countEq (cs : List Char) : Nat := (cs.filter (fun c => c == '=')).length

/-- Python `text.replace('==>', '')`: drop each non-overlapping occurrence,
left to right. -/
def replaceArrow : List Char → List Char
  | '=' :: '=' :: '>' :: t => replaceArrow t
  | c :: t => c :: replaceArrow t
  | [] => []

/-- `sched_switch_parser` from the source: exactly two `'='` selects the
legacy-format regex parser; otherwise the default parser runs on the text
with `'==>'` removed. -/
def schedSwitchParser : Parser := fun text =>
  if countEq text.data == 2 then regexBodyParser legacyRx text
  else defaultBodyParser (String.mk (replaceArrow text.data))

/-- The registry `EVENT_PARSER_MAP`, normalized as in `parse` (strings and
precompiled patterns would be wrapped by `regex_body_parser`; the map holds
one callable). -/
def EVENT_PARSER_MAP : List (String × Parser) :=
  [("sched_switch", schedSwitchParser)]

/-- `EVENT_PARSER_MAP.get(event_name, default_body_parser)`. -/
def eventParserFor (name : String) : Parser :=
  match EVENT_PARSER_MAP.lookup name with
  | some p => p
  | none => defaultBodyParser

/-- `DROPPED_EVENTS_REGEX` (`CPU:(?P<cpu_id>\d+) \[\d*\s*EVENTS DROPPED\]`)
attempted at one start position; returns the `cpu_id` capture. -/
def droppedMatchAt (cs : List Char) : Option String :=
  if "CPU:".data.isPrefixOf cs then
    let rest := cs.drop 4
    let ds := rest.takeWhile Char.isDigit
    if ds.isEmpty then none
    else
      let r1 := rest.drop ds.length
      if " [".data.isPrefixOf r1 then
        let r2 := r1.drop 2
        let r3 := r2.drop (r2.takeWhile Char.isDigit).length
        let r4 := r3.drop (r3.takeWhile isPyWs).length
        if "EVENTS DROPPED]".data.isPrefixOf r4 then some (String.mk ds) else none
      else none
  else none

/-- `DROPPED_EVENTS_REGEX.search`: leftmost matching start position. -/
def droppedSearch : List Char → Option String
  | [] => none
  | c :: t =>
    match droppedMatchAt (c :: t) with
    | some s => some s
    | none => droppedSearch t

/-- `HEADER_REGEX.search` (`^\s*(?:version|cpus)\s*=\s*([\d.]+)\s*$`): the
`^` anchors at the string start, so only position 0 is attempted. -/
def headerMatch (cs : List Char) : Bool :=
  let r0 := cs.dropWhile isPyWs
  let r1 := if "version".data.isPrefixOf r0 then some (r0.drop 7)
            else if "cpus".data.isPrefixOf r0 then some (r0.drop 4)
            else none
  match r1 with
  | none => false
  | some r1 =>
    match r1.dropWhile isPyWs with
    | '=' :: r3 =>
      let r4 := r3.dropWhile isPyWs
      let num := r4.takeWhile (fun c => c.isDigit || c == '.')
      if num.isEmpty then false
      else (r4.drop num.length).all isPyWs
    | _ => false

/-- `EMPTY_CPU_REGEX` (`CPU \d+ is empty`) attempted at one start position. -/
def emptyCpuMatchAt (cs : List Char) : Bool :=
  if "CPU ".data.isPrefixOf cs then
    let r := cs.drop 4
    let d := r.takeWhile Char.isDigit
    !d.isEmpty && " is empty".data.isPrefixOf (r.drop d.length)
  else false

/-- `EMPTY_CPU_REGEX.search`. -/
def emptyCpuSearch : List Char → Bool
  | [] => false
  | c :: t => emptyCpuMatchAt (c :: t) || emptyCpuSearch t

/-- The named groups of `TRACE_EVENT_REGEX`. -/
structure TraceGroups where
  thread : String
  cpu_id : String
  ts : String
  name : String
  body : String
deriving DecidableEq

/-- Strip trailing Python whitespace (`(?P<body>.*?)\s*$` leaves the body
with its maximal trailing whitespace run removed). -/
def dropTrailingWs (cs : List Char) : List Char :=
  (cs.reverse.dropWhile isPyWs).reverse

/-- The `\s+(?P<name>[^:]+):` piece of the event pattern.  The `\s+` is
greedy, but whitespace is itself inside `[^:]`, so it genuinely backtracks:
when the character right after the whitespace run is `':'`, Python gives one
whitespace character back and the name capture becomes the run's last
whitespace character (possible only when the run has length at least two).
Otherwise the name is the maximal colon-free run after the whitespace run,
and it must be followed by `':'`; giving back more whitespace only prepends
whitespace to the name while the continuation after the colon stays the
same, so the greedy choice is the one that surfaces.  Returns the name
capture and the text after its colon. -/
def matchNameColon (r4 : List Char) : Option (List Char × List Char) :=
  let w3 := r4.takeWhile isPyWs
  if w3.isEmpty then none else
  let rest2 := r4.drop w3.length
  let nm0 := rest2.takeWhile (fun c => !(c == ':'))
  if nm0.isEmpty then
    match rest2 with
    | ':' :: r6 => if 2 ≤ w3.length then some ([w3.getLastD ' '], r6) else none
    | _ => none
  else
    match rest2.drop nm0.length with
    | ':' :: r6 => some (nm0, r6)
    | _ => none

/-- The tail of `TRACE_EVENT_REGEX` after the thread group:
`\s+\[(?P<cpu_id>\d+)\]\s+(?P<ts>[\d.]+):\s+(?P<name>[^:]+):\s+(?P<body>.*?)\s*$`.
The quantifiers up to the timestamp colon are forced to their maximal runs
(the literal that follows each lies outside its class); the name piece
backtracks as described at `matchNameColon`; the final
`\s+(?P<body>.*?)\s*$` needs a nonempty whitespace run (shortening it only
prepends whitespace to the remainder, so it cannot rescue a failure), and
then matches exactly when the remainder stripped of trailing whitespace
contains no newline (`.` cannot cross one), capturing that stripped
remainder as the lazy body. -/
def matchAfterThread (cs : List Char) : Option (String × String × String × String) :=
  let w1 := cs.takeWhile isPyWs
  if w1.isEmpty then none else
  match cs.drop w1.length with
  | '[' :: r1 =>
    let d := r1.takeWhile Char.isDigit
    if d.isEmpty then none else
    match r1.drop d.length with
    | ']' :: r2 =>
      let w2 := r2.takeWhile isPyWs
      if w2.isEmpty then none else
      let r3 := r2.drop w2.length
      let t := r3.takeWhile (fun c => c.isDigit || c == '.')
      if t.isEmpty then none else
      match r3.drop t.length with
      | ':' :: r4 =>
        match matchNameColon r4 with
        | none => none
        | some (nm, r6) =>
          let w4 := r6.takeWhile isPyWs
          if w4.isEmpty then none else
          let body := dropTrailingWs (r6.drop w4.length)
          if body.all (fun c => !(c == '\n')) then
            some (String.mk d, String.mk t, String.mk nm, String.mk body)
          else none
      | _ => none
    | _ => none
  | _ => none

/-- One thread-group candidate: the thread capture ends at index `e` of the
text after the leading whitespace; the rest of the pattern must match there. -/
def threadCandidate (rest : List Char) (e : Nat) : Option TraceGroups :=
  match matchAfterThread (rest.drop e) with
  | some (cpu, ts, nm, body) => some ⟨String.mk (rest.take e), cpu, ts, nm, body⟩
  | none => none

/-- `TRACE_EVENT_REGEX.search`.  The `^` anchor allows only position 0; the
leading `\s+` is forced maximal (`\S` follows).  The thread group
`\S+.*?\S+` backtracks: the first `\S+` takes `lenA` characters (longest
first), the lazy `.*?` takes `lenM` (shortest first, no newline), the final
`\S+` takes `lenB` of the following non-whitespace run (longest first). -/
def traceEventSearch (s : String) : Option TraceGroups :=
  let cs := s.data
  let lead := cs.takeWhile isPyWs
  if lead.isEmpty then none else
  let rest := cs.drop lead.length
  let maxA := (rest.takeWhile (fun c => !(isPyWs c))).length
  (countdown maxA).findSome? (fun lenA =>
    (List.range (rest.length - lenA + 1)).findSome? (fun lenM =>
      if ((rest.drop lenA).take lenM).all (fun c => !(c == '\n')) then
        let maxB := ((rest.drop (lenA + lenM)).takeWhile (fun c => !(isPyWs c))).length
        (countdown maxB).findSome? (fun lenB =>
          threadCandidate rest (lenA + lenM + lenB))
      else none))

/-- What `parse` does with one line, given the marker-filtering flag, the
current region state and the compiled name filters. -/
inductive LineAction where
  | consume (nowInside : Bool)
  | stop
  | yieldDropped (cpu : String)
  | skip
  | yieldEvent (g : TraceGroups)
deriving DecidableEq

/-- Per-line classification of `TraceCmdTrace.parse`, in the source's
priority order: marker handling, dropped-events, header / empty-CPU,
event-line match, name filter. -/
def lineAction (fm inside : Bool) (filters : List (String → Bool)) (line : String) :
    LineAction :=
  if fm && !inside then .consume (strIn TRACE_MARKER_START line)
  else if fm && inside && strIn TRACE_MARKER_STOP line then .stop
  else
    match droppedSearch line.data with
    | some s => .yieldDropped s
    | none =>
      if headerMatch line.data || emptyCpuSearch line.data then .skip
      else
        match traceEventSearch line with
        | none => .skip
        | some g =>
          if !filters.isEmpty && filters.all (fun f => !(f g.name)) then .skip
          else .yieldEvent g

/-- The generator loop of `TraceCmdTrace.parse` over a list of input lines
(one string per line, newline not included).  `stop` is the `break`;
a `none` from an event constructor models an uncaught error ending the
stream (unreachable: both ids come from `\d+` groups). -/
def parseLines (fm : Bool) (filters : List (String → Bool)) :
    Bool → List String → List Event
  | _, [] => []
  | inside, line :: rest =>
    match lineAction fm inside filters line with
    | .consume b => parseLines fm filters b rest
    | .stop => []
    | .yieldDropped s =>
      match mkDroppedEventsEvent s with
      | some e => e :: parseLines fm filters inside rest
      | none => []
    | .skip => parseLines fm filters inside rest
    | .yieldEvent g =>
      match mkTraceCmdEvent g.thread g.cpu_id g.ts g.name g.body
              (some (eventParserFor g.name)) with
      | .ok e => e :: parseLines fm filters inside rest
      | .error _ => []

/-- `TraceCmdTrace.parse` with configuration `filter_markers` and `names`:
each name is compiled as the whole-string regex `'^{}$'.format(n)`; for the
literal (metacharacter-free) names the claims use, that regex matches
exactly the name itself.  The initial region state is "outside". -/
def TraceCmdTrace.parse (filter_markers : Bool) (names : List String)
    (lines : List String) : List Event :=
  parseLines filter_markers (names.map (fun n => fun s => s == n)) false lines

/-! ### Helper lemmas -/

theorem dropWhile_eq_self_of {α : Type} {p : α → Bool} :
    ∀ {l : List α}, (∀ x ∈ l, p x = false) → l.dropWhile p = l
  | [], _ => rfl
  | a :: t, h => by
    have ha : p a = false := h a (List.mem_cons_self a t)
    simp [List.dropWhile_cons, ha]

/-- Stripping is the identity on whitespace-free text. -/
theorem stripWsL_eq_self {cs : List Char} (h : ∀ c ∈ cs, isPyWs c = false) :
    stripWsL cs = cs := by
  unfold stripWsL
  rw [dropWhile_eq_self_of h]
  rw [dropWhile_eq_self_of (by intro c hc; exact h c (List.mem_reverse.mp hc))]
  exact List.reverse_reverse cs

/-- ASCII digits are not Python whitespace. -/
theorem digit_not_pyWs {c : Char} (h : c.isDigit = true) : isPyWs c = false := by
  by_cases h1 : c = ' '
  · subst h1; exact absurd h (by decide)
  by_cases h2 : c = '\t'
  · subst h2; exact absurd h (by decide)
  by_cases h3 : c = '\n'
  · subst h3; exact absurd h (by decide)
  by_cases h4 : c = '\r'
  · subst h4; exact absurd h (by decide)
  by_cases h5 : c = '\x0b'
  · subst h5; exact absurd h (by decide)
  by_cases h6 : c = '\x0c'
  · subst h6; exact absurd h (by decide)
  simp [isPyWs, h1, h2, h3, h4, h5, h6]

/-- `int` succeeds on a nonempty all-digit string, with a `Nat` result. -/
theorem pyInt_digits {ds : List Char} (hne : ds ≠ []) (hd : ∀ c ∈ ds, c.isDigit = true) :
    ∃ n : Nat, pyIntL ds = some (Int.ofNat n) := by
  have hs : stripWsL ds = ds :=
    stripWsL_eq_self (fun c hc => digit_not_pyWs (hd c hc))
  unfold pyIntL
  rw [hs]
  match ds, hne with
  | c :: t, _ =>
    have hc : c.isDigit = true := hd c (List.mem_cons_self c t)
    have hplus : (c == '+') = false := by
      cases hq : c == '+' with
      | false => rfl
      | true => exact absurd hc (by rw [beq_iff_eq] at hq; subst hq; decide)
    have hminus : (c == '-') = false := by
      cases hq : c == '-' with
      | false => rfl
      | true => exact absurd hc (by rw [beq_iff_eq] at hq; subst hq; decide)
    have hall : (c :: t).all Char.isDigit = true := List.all_eq_true.mpr hd
    refine ⟨digitsToNat (c :: t), ?_⟩
    simp [hplus, hminus, natOfDigits, hall]

/-- A successful `droppedMatchAt` capture is a nonempty digit string. -/
theorem droppedMatchAt_digits {cs : List Char} {s : String}
    (h : droppedMatchAt cs = some s) : s.data ≠ [] ∧ ∀ c ∈ s.data, c.isDigit = true := by
  unfold droppedMatchAt at h
  split at h
  · set ds := (cs.drop 4).takeWhile Char.isDigit with hds
    by_cases hne : ds.isEmpty
    · simp only [← hds, hne, if_true] at h
      exact absurd h (by simp)
    · simp only [← hds, hne, Bool.false_eq_true, if_false] at h
      split at h
      · split at h
        · have hs : s = String.mk ds := by
            cases h; rfl
          subst hs
          constructor
          · simpa [List.isEmpty_iff] using hne
          · intro c hc
            exact List.mem_takeWhile_imp hc
        · exact absurd h (by simp)
      · exact absurd h (by simp)
  · exact absurd h (by simp)

/-- A successful `droppedSearch` capture is a nonempty digit string. -/
theorem droppedSearch_digits :
    ∀ {cs : List Char} {s : String}, droppedSearch cs = some s →
      s.data ≠ [] ∧ ∀ c ∈ s.data, c.isDigit = true := by
  intro cs
  induction cs with
  | nil => intro s h; exact absurd h (by simp [droppedSearch])
  | cons c t ih =>
    intro s h
    unfold droppedSearch at h
    split at h
    · cases h; exact droppedMatchAt_digits (by assumption)
    · exact ih h

/-- Field assignments the parser performs before its first raised error. -/
def setsBeforeRaise : List PStep → List (String × Value)
  | [] => []
  | .raise :: _ => []
  | .set k v :: rest => (k, v) :: setsBeforeRaise rest

/-- Apply a list of field assignments in order. -/
def applySets (ps : List (String × Value)) (fs : Fields) : Fields :=
  ps.foldl (fun acc kv => Fields.set acc kv.1 kv.2) fs

theorem runParserCaught_eq_applySets :
    ∀ (steps : List PStep) (fs : Fields),
      runParserCaught steps fs = applySets (setsBeforeRaise steps) fs := by
  intro steps
  induction steps with
  | nil => intro fs; rfl
  | cons s rest ih =>
    intro fs
    cases s with
    | raise => rfl
    | set k v =>
      simp only [runParserCaught, setsBeforeRaise, applySets, List.foldl_cons]
      exact ih _

theorem runParserCaught_map_set :
    ∀ (ps : List (String × Value)) (fs : Fields),
      runParserCaught (ps.map (fun kv => PStep.set kv.1 kv.2)) fs = applySets ps fs := by
  intro ps
  induction ps with
  | nil => intro fs; rfl
  | cons kv rest ih =>
    intro fs
    simp only [List.map_cons, runParserCaught, applySets, List.foldl_cons]
    exact ih _

/-- Assigning fields whose keys are fresh and mutually distinct appends them. -/
theorem applySets_of_fresh :
    ∀ (ps : List (String × Value)) (fs : Fields),
      (∀ kv ∈ ps, fs.any (fun p => p.1 == kv.1) = false) →
      (ps.map Prod.fst).Nodup →
      applySets ps fs = fs ++ ps := by
  intro ps
  induction ps with
  | nil => intro fs _ _; simp [applySets]
  | cons kv rest ih =>
    intro fs hfresh hnd
    have hkv : fs.any (fun p => p.1 == kv.1) = false :=
      hfresh kv (List.mem_cons_self kv rest)
    have hset : Fields.set fs kv.1 kv.2 = fs ++ [kv] := by
      simp [Fields.set, hkv]
    have hnd' : (rest.map Prod.fst).Nodup := (List.nodup_cons.mp (by simpa using hnd)).2
    have hhead : kv.1 ∉ rest.map Prod.fst := (List.nodup_cons.mp (by simpa using hnd)).1
    have hfresh' : ∀ kv2 ∈ rest, (fs ++ [kv]).any (fun p => p.1 == kv2.1) = false := by
      intro kv2 h2
      rw [List.any_append]
      have h1 : fs.any (fun p => p.1 == kv2.1) = false :=
        hfresh kv2 (List.mem_cons_of_mem kv h2)
      have h3 : (kv.1 == kv2.1) = false := by
        cases hq : kv.1 == kv2.1 with
        | false => rfl
        | true =>
          rw [beq_iff_eq] at hq
          exact absurd (hq ▸ List.mem_map_of_mem Prod.fst h2) hhead
      simp [h1, h3]
    calc applySets (kv :: rest) fs = applySets rest (Fields.set fs kv.1 kv.2) := rfl
      _ = applySets rest (fs ++ [kv]) := by rw [hset]
      _ = (fs ++ [kv]) ++ rest := ih _ hfresh' hnd'
      _ = fs ++ kv :: rest := by simp

/-- `[k, ..., 1]` contains only positive numbers bounded by `k`. -/
theorem mem_countdown : ∀ {k x : Nat}, x ∈ countdown k → 1 ≤ x ∧ x ≤ k := by
  intro k
  induction k with
  | zero => intro x h; exact absurd h (by simp [countdown])
  | succ n ih =>
    intro x h
    unfold countdown at h
    rcases List.mem_cons.mp h with h | h
    · subst h; omega
    · have := ih h; omega

/-- A successful construction of a regular event has `trace` kind and the
given name. -/
theorem mkTraceCmdEvent_ok {thread cpu_id ts name body : String}
    {parser : Option Parser} {e : Event}
    (h : mkTraceCmdEvent thread cpu_id ts name body parser = .ok e) :
    e.kind = .trace ∧ e.name = name := by
  unfold mkTraceCmdEvent at h
  cases hp : pyInt cpu_id with
  | none => rw [hp] at h; exact absurd h (by simp)
  | some i =>
    rw [hp] at h
    cases h
    exact ⟨rfl, rfl⟩

/-! ### Claim theorems -/

/-- Claim C1: with marker filtering enabled, every line read before a line
containing the start marker has been seen is consumed without yielding any
event (the start-marker line itself included), and a line containing the
stop marker encountered inside the marked region terminates the stream, no
further lines being read. -/
theorem parse_marker_filtering (filters : List (String → Bool)) :
    (∀ (pre : List String) (s : String) (rest : List String),
       (∀ l ∈ pre, strIn TRACE_MARKER_START l = false) →
       strIn TRACE_MARKER_START s = true →
       parseLines true filters false (pre ++ s :: rest) =
         parseLines true filters true rest)
  ∧ (∀ (s : String) (rest : List String),
       strIn TRACE_MARKER_STOP s = true →
       parseLines true filters true (s :: rest) = []) := by
  constructor
  · intro pre
    induction pre with
    | nil =>
      intro s rest _ hs
      simp [parseLines, lineAction, hs]
    | cons l t ih =>
      intro s rest hpre hs
      have hl : strIn TRACE_MARKER_START l = false := hpre l (List.mem_cons_self l t)
      have hrec := ih s rest (fun x hx => hpre x (List.mem_cons_of_mem l hx)) hs
      simpa [parseLines, lineAction, hl] using hrec
  · intro s rest hs
    simp [parseLines, lineAction, hs]

/-- Witness for C1: concrete pre-marker lines, a start-marker line and a
stop-marker line. -/
theorem parse_marker_filtering_witness :
    parseLines true [] false (["junk"] ++ "TRACE_MARKER_START" :: ["rest line"]) =
      parseLines true [] true ["rest line"]
  ∧ parseLines true [] true ("has TRACE_MARKER_STOP here" :: [" ab [0] 1: foo: x"]) = [] :=
  ⟨(parse_marker_filtering []).1 ["junk"] "TRACE_MARKER_START" ["rest line"]
     (by decide) (by decide),
   (parse_marker_filtering []).2 "has TRACE_MARKER_STOP here" [" ab [0] 1: foo: x"]
     (by decide)⟩

/-- Claim C2: any error a body parser raises during event construction is
caught and discarded — construction succeeds and the event's `fields` hold
exactly the assignments the parser performed before failing. -/
theorem parser_error_swallowed (thread cpu_id ts name body : String)
    (p : Parser) (i : Int) (h : pyInt cpu_id = some i) :
    ∃ e, mkTraceCmdEvent thread cpu_id ts name body (some p) = .ok e ∧
      e.fields = applySets (setsBeforeRaise (p body)) [] := by
  simp only [mkTraceCmdEvent, h]
  exact ⟨_, rfl, runParserCaught_eq_applySets (p body) []⟩

/-- Witness for C2: a parser that assigns one field and then raises; the
event is constructed with exactly that one field. -/
theorem parser_error_swallowed_witness :
    (∃ e, mkTraceCmdEvent "t" "0" "1.0" "evt" "b"
        (some (fun _ => [PStep.set "a" (.int 1), .raise, .set "b" (.int 2)])) = .ok e ∧
      e.fields = applySets (setsBeforeRaise
        [PStep.set "a" (.int 1), .raise, .set "b" (.int 2)]) [])
  ∧ applySets (setsBeforeRaise
        [PStep.set "a" (.int 1), .raise, .set "b" (.int 2)]) [] = [("a", Value.int 1)] :=
  ⟨parser_error_swallowed "t" "0" "1.0" "evt" "b" _ 0 (by decide), by decide⟩

/-- Claim C5: a non-numeric CPU id string makes event construction fail with
the `MalformedHeader` error; a numeric one yields `reporting_cpu_id` equal
to the string parsed as an integer. -/
theorem cpu_id_validation :
    (∀ thread cpu_id ts name body parser,
       pyInt cpu_id = none →
       mkTraceCmdEvent thread cpu_id ts name body parser =
         .error (.malformedHeader cpu_id))
  ∧ (∀ thread cpu_id ts name body parser i,
       pyInt cpu_id = some i →
       ∃ e, mkTraceCmdEvent thread cpu_id ts name body parser = .ok e ∧
         e.reporting_cpu_id = .int i) := by
  constructor
  · intro thread cpu_id ts name body parser h
    simp [mkTraceCmdEvent, h]
  · intro thread cpu_id ts name body parser i h
    simp only [mkTraceCmdEvent, h]
    exact ⟨_, rfl, rfl⟩

/-- Witness for C5: `"abc"` is rejected, `"42"` parses to 42. -/
theorem cpu_id_validation_witness :
    mkTraceCmdEvent "t" "abc" "1" "n" "b" none = .error (.malformedHeader "abc")
  ∧ ∃ e, mkTraceCmdEvent "t" "42" "1" "n" "b" none = .ok e ∧
      e.reporting_cpu_id = .int 42 :=
  ⟨cpu_id_validation.1 "t" "abc" "1" "n" "b" none (by decide),
   cpu_id_validation.2 "t" "42" "1" "n" "b" none 42 (by decide)⟩

/-- Python-style rsplit at the last whitespace character, at most once
(used only by the claim-as-stated tokenization below). -/
def rsplitWs1 (cs : List Char) : List (List Char) :=
  let r := cs.reverse
  let after := r.takeWhile (fun c => !(isPyWs c))
  match r.dropWhile (fun c => !(isPyWs c)) with
  | [] => [cs]
  | _ :: before => [before.reverse, after.reverse]

/-- Re-split only the interior fragments, keeping the last one intact (the
caller keeps the first intact). -/
def interiorResplit : List (List Char) → List (List Char)
  | [] => []
  | [last] => [last]
  | f :: rest => rsplitWs1 f ++ interiorResplit rest

/-- The tokenization exactly as claim C3 describes it: split on `'='`, then
for every interior fragment — NOT the first or last — split off the trailing
whitespace-delimited token as the next key; odd token count sets nothing,
else pair up with `int` conversion attempted on values. -/
def claimedDefaultPairs (text : List Char) : List (String × Value) :=
  let tokens :=
    (match splitOnEq (stripWsL text) with
     | [] => []
     | f0 :: rest => f0 :: interiorResplit rest).map stripWsL
  if tokens.length % 2 == 0 then
    (pairUp tokens).map (fun kv => (String.mk kv.1, intOrStrTok kv.2))
  else []

/-- The tokenization per the amended claim wording for C3: split on `'='`;
split EVERY fragment — the first and last included — at its last space
character; strip each token; odd token count yields no pairs, an even count
yields consecutive pairs with `int` conversion attempted on each value. -/
def amendedDefaultPairs (text : List Char) : List (String × Value) :=
  let fragments := splitOnEq (stripWsL text)
  let tokens := (fragments.map rsplitSpace1).flatten.map stripWsL
  if tokens.length % 2 == 0 then
    (pairUp tokens).map (fun kv => (String.mk kv.1, intOrStrTok kv.2))
  else []

/-- Claim C3 (counterexample): on body `"a=b c"` the code re-splits the LAST
fragment too, gets an odd token count and sets no fields, while the claim's
interior-only tokenization predicts the single field `a = "b c"`. -/
theorem default_body_tokenization_claim_false :
    runBodyParser defaultBodyParser "a=b c" = []
  ∧ claimedDefaultPairs "a=b c".data = [("a", Value.str "b c")]
  ∧ claimedDefaultPairs "a=b c".data ≠ [] :=
  ⟨by decide, by decide, by decide⟩

/-- Claim C3 (amended): the default body parser splits on `'='`, then splits
EVERY fragment — first and last included — at its last space character; when
the stripped token count is odd it silently sets no fields and it never
raises; when even, each value is stored as an integer when it parses as one,
else as the stripped string. -/
theorem default_body_tokenization (text : String) :
    runBodyParser defaultBodyParser text = applySets (amendedDefaultPairs text.data) []
  ∧ ((((splitOnEq (stripWsL text.data)).map rsplitSpace1).flatten).length % 2 = 1 →
      runBodyParser defaultBodyParser text = [])
  ∧ PStep.raise ∉ defaultBodyParser text
  ∧ runBodyParser defaultBodyParser "cpu=0 load=54" =
      [("cpu", Value.int 0), ("load", Value.int 54)] := by
  refine ⟨?_, ?_, ?_, by decide⟩
  · exact runParserCaught_map_set (defaultPairsL text.data) []
  · intro h
    simp only [runBodyParser, defaultBodyParser, defaultPairsL]
    rw [List.length_map, h]
    simp [runParserCaught]
  · simp [defaultBodyParser, List.mem_map]

/-- Witness for the amended C3: `"a=b c"` flattens to three tokens (odd), so
no fields are set. -/
theorem default_body_tokenization_witness :
    runBodyParser defaultBodyParser "one=two three" = [] :=
  (default_body_tokenization "one=two three").2.1 (by decide)

/-- Claim C4: `sched_switch` body dispatch counts `'='` occurrences —
exactly two selects the legacy fixed regex, more than two selects the
default key=value parser on the text with the literal `'==>'` stripped; on
the legacy example all seven named groups are extracted with pid/prio
numeric and comm/status strings. -/
theorem sched_switch_dispatch :
    (∀ text : String, countEq text.data = 2 →
       schedSwitchParser text = regexBodyParser legacyRx text)
  ∧ (∀ text : String, 2 < countEq text.data →
       schedSwitchParser text = defaultBodyParser (String.mk (replaceArrow text.data)))
  ∧ countEq "a:1 [120] R ==> b:2 [100]".data = 2
  ∧ runBodyParser schedSwitchParser "a:1 [120] R ==> b:2 [100]" =
      [("prev_comm", Value.str "a"), ("prev_pid", Value.int 1),
       ("prev_prio", Value.int 120), ("status", Value.str "R"),
       ("next_comm", Value.str "b"), ("next_pid", Value.int 2),
       ("next_prio", Value.int 100)] := by
  refine ⟨?_, ?_, by decide, by decide⟩
  · intro text h
    simp [schedSwitchParser, h]
  · intro text h
    have h2 : (countEq text.data == 2) = false := by
      rw [beq_eq_false_iff_ne]
      omega
    simp [schedSwitchParser, h2]

/-- Witness for C4: two `'='` (both inside the arrow) take the legacy
branch; three `'='` take the default branch on the arrow-stripped text. -/
theorem sched_switch_dispatch_witness :
    schedSwitchParser "x==y" = regexBodyParser legacyRx "x==y"
  ∧ schedSwitchParser "a=1 b=2 c=3" =
      defaultBodyParser (String.mk (replaceArrow "a=1 b=2 c=3".data)) :=
  ⟨sched_switch_dispatch.1 "x==y" (by decide),
   sched_switch_dispatch.2.1 "a=1 b=2 c=3" (by decide)⟩

/-- Claim C6: a line matching the dropped-events pattern yields exactly one
`DroppedEventsEvent` for that line, whose `fields` hold exactly one entry —
the CPU id as a non-negative integer — whose name is the fixed sentinel, and
whose header attributes are null. -/
theorem parse_dropped_events (filters : List (String → Bool))
    (line : String) (rest : List String) (s : String)
    (h : droppedSearch line.data = some s) :
    ∃ n : Nat, pyInt s = some (Int.ofNat n) ∧
      parseLines false filters false (line :: rest) =
        { kind := .dropped, thread := .pyNone, reporting_cpu_id := .pyNone,
          timestamp := .pyNone, name := "DROPPED EVENTS DETECTED",
          text := .pyNone, fields := [("cpu_id", Value.int (Int.ofNat n))] }
          :: parseLines false filters false rest := by
  obtain ⟨hne, hd⟩ := droppedSearch_digits h
  obtain ⟨n, hn⟩ := pyInt_digits hne hd
  have hn' : pyInt s = some (Int.ofNat n) := hn
  refine ⟨n, hn', ?_⟩
  simp [parseLines, lineAction, h, mkDroppedEventsEvent, hn']

/-- Witness for C6 at the spec's example line. -/
theorem parse_dropped_events_witness :
    droppedSearch "CPU:3 [42 EVENTS DROPPED]".data = some "3"
  ∧ ∃ n : Nat, pyInt "3" = some (Int.ofNat n) ∧
      parseLines false [] false ["CPU:3 [42 EVENTS DROPPED]"] =
        { kind := .dropped, thread := .pyNone, reporting_cpu_id := .pyNone,
          timestamp := .pyNone, name := "DROPPED EVENTS DETECTED",
          text := .pyNone, fields := [("cpu_id", Value.int (Int.ofNat n))] }
          :: parseLines false [] false [] :=
  ⟨by decide, parse_dropped_events [] "CPU:3 [42 EVENTS DROPPED]" [] "3" (by decide)⟩

/-- Claim C7: a parser produced by the regex-body-parser factory leaves
`fields` empty when the regex does not match (no error), and on a match
assigns exactly the named captures — integer-converted when the captured
text parses as an integer, else the captured string. -/
theorem regex_body_parser_spec :
    (∀ (rx : Rx) (text : String), rx text = none →
       runBodyParser (regexBodyParser rx) text = [])
  ∧ (∀ (rx : Rx) (text : String) (gd : List (String × String)),
       rx text = some gd → (gd.map Prod.fst).Nodup →
       runBodyParser (regexBodyParser rx) text =
         gd.map (fun kv =>
           (kv.1, match pyInt kv.2 with
                  | some i => Value.int i
                  | none => Value.str kv.2))) := by
  constructor
  · intro rx text h
    simp [runBodyParser, regexBodyParser, h, runParserCaught]
  · intro rx text gd h hnd
    set ps := gd.map (fun kv =>
      (kv.1, match pyInt kv.2 with
             | some i => Value.int i
             | none => Value.str kv.2)) with hps
    have h1 : regexBodyParser rx text = ps.map (fun kv => PStep.set kv.1 kv.2) := by
      simp only [regexBodyParser, h, hps, List.map_map]
      rfl
    have h2 : (ps.map Prod.fst).Nodup := by
      have : ps.map Prod.fst = gd.map Prod.fst := by
        simp only [hps, List.map_map]
        rfl
      rw [this]
      exact hnd
    calc runBodyParser (regexBodyParser rx) text
        = runParserCaught (ps.map (fun kv => PStep.set kv.1 kv.2)) [] := by
          rw [runBodyParser, h1]
      _ = applySets ps [] := runParserCaught_map_set ps []
      _ = [] ++ ps := applySets_of_fresh ps [] (fun kv _ => rfl) h2
      _ = ps := by simp

/-- Witness for C7: a non-matching regex sets nothing; a matching one turns
the numeric capture into an integer and keeps the other as a string. -/
theorem regex_body_parser_spec_witness :
    runBodyParser (regexBodyParser (fun _ => none)) "anything" = []
  ∧ runBodyParser (regexBodyParser (fun _ => some [("x", "12"), ("y", "ab")])) "t" =
      [("x", Value.int 12), ("y", Value.str "ab")] :=
  ⟨regex_body_parser_spec.1 (fun _ => none) "anything" rfl,
   regex_body_parser_spec.2 (fun _ => some [("x", "12"), ("y", "ab")]) "t"
     [("x", "12"), ("y", "ab")] rfl (by decide)⟩

deriving instance DecidableEq for Except

/-- Claim C8 (counterexample): a parsed field whose name collides with a
header slot is shadowed on access: on body `"name=foo"` the event stores
`fields = {name: "foo"}`, yet accessing `"name"` returns the header slot
value `"evt"`, not the stored value. -/
theorem getattr_claim_false :
    (mkTraceCmdEvent "t" "0" "1" "evt" "name=foo" (some defaultBodyParser)).map
      (fun e => (e.fields.lookup "name", e.getattr "name")) =
      .ok (some (Value.str "foo"), .ok (.val (Value.str "evt")))
  ∧ Value.str "evt" ≠ Value.str "foo" :=
  ⟨by decide, by decide⟩

/-- Claim C8 (amended): for every field name that is NOT one of the header
slots, access signals attribute-not-found when the name is absent from
`fields`, and returns the stored value when present. -/
theorem getattr_spec (e : Event) (n : String) (h : n ∉ eventSlots) :
    (e.fields.lookup n = none → e.getattr n = .error n)
  ∧ (∀ v, e.fields.lookup n = some v → e.getattr n = .ok (.val v)) := by
  simp only [eventSlots, List.mem_cons, List.not_mem_nil, or_false, not_or] at h
  obtain ⟨h1, h2, h3, h4, h5, h6⟩ := h
  constructor
  · intro hl
    simp [Event.getattr, h1, h2, h3, h4, h5, h6, hl]
  · intro v hl
    simp [Event.getattr, h1, h2, h3, h4, h5, h6, hl]

/-- Witness for the amended C8 on a concrete dropped-events event: the
present field `cpu_id` is returned, the absent `zzz` raises. -/
theorem getattr_spec_witness :
    ({ kind := .dropped, thread := .pyNone, reporting_cpu_id := .pyNone,
       timestamp := .pyNone, name := "DROPPED EVENTS DETECTED", text := .pyNone,
       fields := [("cpu_id", Value.int 3)] } : Event).getattr "cpu_id" =
      .ok (.val (Value.int 3))
  ∧ ({ kind := .dropped, thread := .pyNone, reporting_cpu_id := .pyNone,
       timestamp := .pyNone, name := "DROPPED EVENTS DETECTED", text := .pyNone,
       fields := [("cpu_id", Value.int 3)] } : Event).getattr "zzz" = .error "zzz" :=
  ⟨(getattr_spec _ "cpu_id" (by decide)).2 (Value.int 3) (by decide),
   (getattr_spec _ "zzz" (by decide)).1 (by decide)⟩

/-- A yielded regular event passed the singleton `sched_switch` filter. -/
theorem lineAction_yieldEvent_name {fm inside : Bool} {line : String} {g : TraceGroups}
    (h : lineAction fm inside [fun s => s == "sched_switch"] line = .yieldEvent g) :
    g.name = "sched_switch" := by
  unfold lineAction at h
  split at h
  · exact absurd h (by simp)
  · split at h
    · exact absurd h (by simp)
    · split at h
      · exact absurd h (by simp)
      · split at h
        · exact absurd h (by simp)
        · split at h
          · exact absurd h (by simp)
          · split at h
            · exact absurd h (by simp)
            · rename_i hcond
              cases h
              simpa using hcond

/-- Claim C9 (counterexample): with the filter set {"sched_switch"}, a
dropped-events line still yields an event — named by the sentinel, not
"sched_switch" — so an event of another name IS yielded. -/
theorem name_filter_claim_false :
    TraceCmdTrace.parse false ["sched_switch"] ["CPU:3 [42 EVENTS DROPPED]"] =
      [{ kind := .dropped, thread := .pyNone, reporting_cpu_id := .pyNone,
         timestamp := .pyNone, name := "DROPPED EVENTS DETECTED",
         text := .pyNone, fields := [("cpu_id", Value.int 3)] }]
  ∧ "DROPPED EVENTS DETECTED" ≠ "sched_switch" :=
  ⟨by decide, by decide⟩

/-- Claim C9 (amended): with a non-empty filter set, a well-formed event
line whose parsed name matches no filter entry is skipped without yielding;
consequently, with the filter set {"sched_switch"}, no REGULAR trace event
of any other name is ever yielded (dropped-events notices bypass the
filter). -/
theorem name_filter_spec :
    (∀ (filters : List (String → Bool)) (line : String) (rest : List String)
       (g : TraceGroups),
       filters ≠ [] →
       droppedSearch line.data = none →
       headerMatch line.data = false →
       emptyCpuSearch line.data = false →
       traceEventSearch line = some g →
       (∀ f ∈ filters, f g.name = false) →
       parseLines false filters false (line :: rest) =
         parseLines false filters false rest)
  ∧ (∀ (fm : Bool) (lines : List String) (e : Event),
       e ∈ TraceCmdTrace.parse fm ["sched_switch"] lines →
       e.kind = .trace → e.name = "sched_switch") := by
  constructor
  · intro filters line rest g hne hdr hhd hec htr hall
    have h1 : filters.isEmpty = false := by
      cases filters with
      | nil => exact absurd rfl hne
      | cons f fs => rfl
    have h2 : (filters.all fun f => !(f g.name)) = true := by
      rw [List.all_eq_true]
      intro f hf
      simp [hall f hf]
    simp [parseLines, lineAction, hdr, hhd, hec, htr, h1, h2]
  · intro fm lines e
    unfold TraceCmdTrace.parse
    suffices h : ∀ (inside : Bool) (ls : List String),
        e ∈ parseLines fm [fun s => s == "sched_switch"] inside ls →
        e.kind = .trace → e.name = "sched_switch" by
      simpa using h false lines
    intro inside ls
    induction ls generalizing inside with
    | nil =>
      intro hmem _
      exact absurd hmem (by simp [parseLines])
    | cons line rest ih =>
      intro hmem hk
      rw [parseLines] at hmem
      cases hla : lineAction fm inside [fun s => s == "sched_switch"] line with
      | consume b =>
        simp only [hla] at hmem
        exact ih b hmem hk
      | stop =>
        simp only [hla] at hmem
        exact absurd hmem (by simp)
      | yieldDropped s =>
        simp only [hla] at hmem
        cases hmk : mkDroppedEventsEvent s with
        | none =>
          simp only [hmk] at hmem
          exact absurd hmem (by simp)
        | some ev =>
          simp only [hmk] at hmem
          rcases List.mem_cons.mp hmem with hev | htail
          · have hkd : ev.kind = .dropped := by
              simp only [mkDroppedEventsEvent, Option.map_eq_some'] at hmk
              obtain ⟨i, _, hev2⟩ := hmk
              rw [← hev2]
            rw [hev] at hk
            rw [hk] at hkd
            exact absurd hkd (by simp)
          · exact ih inside htail hk
      | skip =>
        simp only [hla] at hmem
        exact ih inside hmem hk
      | yieldEvent g =>
        simp only [hla] at hmem
        cases hmk : mkTraceCmdEvent g.thread g.cpu_id g.ts g.name g.body
            (some (eventParserFor g.name)) with
        | error err =>
          simp only [hmk] at hmem
          exact absurd hmem (by simp)
        | ok ev =>
          simp only [hmk] at hmem
          rcases List.mem_cons.mp hmem with hev | htail
          · have hn : ev.name = g.name := (mkTraceCmdEvent_ok hmk).2
            rw [hev, hn]
            exact lineAction_yieldEvent_name hla
          · exact ih inside htail hk

/-- Witness for the amended C9: a well-formed `foo` event line is skipped
under the filter, and a parsed sched_switch stream only contains
`sched_switch` regular events. -/
theorem name_filter_spec_witness :
    parseLines false [fun s => s == "sched_switch"] false
        [" ab [0] 1: foo: x", "CPU 2 is empty"] =
      parseLines false [fun s => s == "sched_switch"] false ["CPU 2 is empty"]
  ∧ ∀ e : Event,
      e ∈ TraceCmdTrace.parse false ["sched_switch"] [" ab [0] 1: sched_switch: x"] →
      e.kind = .trace → e.name = "sched_switch" :=
  ⟨name_filter_spec.1 [fun s => s == "sched_switch"] " ab [0] 1: foo: x"
     ["CPU 2 is empty"] ⟨"ab", "0", "1", "foo", "x"⟩ (by simp) (by decide) (by decide)
     (by decide) (by decide) (by decide),
   fun e hmem hk =>
     name_filter_spec.2 false [" ab [0] 1: sched_switch: x"] e hmem hk⟩

/-- A successful thread candidate captures the first `e` characters after
the leading whitespace. -/
theorem threadCandidate_thread {rest : List Char} {e : Nat} {g : TraceGroups}
    (h : threadCandidate rest e = some g) : g.thread = String.mk (rest.take e) := by
  unfold threadCandidate at h
  split at h
  · cases h
    rfl
  · exact absurd h (by simp)

/-- Claim C10: the thread group `\S+.*?\S+` of the canonical event-line
pattern requires at least two characters, so a line whose thread label is a
single non-whitespace character fails to match and `parse` skips it without
yielding, as on the line `"  X [001] 1.234: foo: bar"`. -/
theorem thread_two_chars :
    (∀ (line : String) (g : TraceGroups),
       traceEventSearch line = some g → 2 ≤ g.thread.length)
  ∧ traceEventSearch "  X [001] 1.234: foo: bar" = none
  ∧ parseLines false [] false ["  X [001] 1.234: foo: bar"] = [] := by
  refine ⟨?_, by decide, by decide⟩
  intro line g h
  simp only [traceEventSearch] at h
  split at h
  · exact absurd h (by simp)
  · obtain ⟨lenA, hA, h1⟩ := List.exists_of_findSome?_eq_some h
    obtain ⟨lenM, _, h2⟩ := List.exists_of_findSome?_eq_some h1
    split at h2
    · obtain ⟨lenB, hB, h3⟩ := List.exists_of_findSome?_eq_some h2
      set cs := line.data with hcs
      set rest := cs.drop (cs.takeWhile isPyWs).length with hrest
      have hthread := threadCandidate_thread h3
      have hA1 : 1 ≤ lenA := (mem_countdown hA).1
      have hB1 : 1 ≤ lenB := (mem_countdown hB).1
      have hBmax : lenB ≤
          ((rest.drop (lenA + lenM)).takeWhile (fun c => !(isPyWs c))).length :=
        (mem_countdown hB).2
      have hBlen : ((rest.drop (lenA + lenM)).takeWhile (fun c => !(isPyWs c))).length ≤
          rest.length - (lenA + lenM) := by
        calc ((rest.drop (lenA + lenM)).takeWhile (fun c => !(isPyWs c))).length
            ≤ (rest.drop (lenA + lenM)).length :=
              (List.takeWhile_prefix _).length_le
          _ = rest.length - (lenA + lenM) := List.length_drop _ _
      have hle : lenA + lenM + lenB ≤ rest.length := by omega
      rw [hthread]
      show 2 ≤ (rest.take (lenA + lenM + lenB)).length
      rw [List.length_take]
      omega
    · exact absurd h2 (by simp)

/-- Witness for C10: a successful concrete match has a two-character thread. -/
theorem thread_two_chars_witness :
    2 ≤ (TraceGroups.mk "ab" "0" "1" "n" "b").thread.length :=
  thread_two_chars.1 " ab [0] 1: n: b" ⟨"ab", "0", "1", "n", "b"⟩ (by decide)
